import Mathlib

set_option maxHeartbeats 1000000

/-!
Shallow embedding of `main.py` from the repository `exportinstapaper_to_md`.
Strings are modelled as `List Char`; Python `KeyError` is modelled with
`Except Unit`; file writes are modelled as the list of (path, content) pairs
returned by `process_json`, in write order.
-/

abbrev Str := List Char

/-- Characters removed by Python `str.strip()` with no argument (the ASCII
whitespace characters; only these can occur in the strings this program
builds at the points where `strip` is applied). -/
def pyWhitespace (c : Char) : Bool :=
  c = ' ' || c = '\t' || c = '\n' || c = '\r' || c = '\x0b' || c = '\x0c'

/-- Drop leading characters satisfying `p` (left half of a Python strip). -/
def lstripBy (p : Char → Bool) (s : Str) : Str := s.dropWhile p

/-- Drop trailing characters satisfying `p` (right half of a Python strip). -/
def rstripBy (p : Char → Bool) (s : Str) : Str := (s.reverse.dropWhile p).reverse

/-- Python `s.strip()`. -/
def pyStrip (s : Str) : Str := rstripBy pyWhitespace (lstripBy pyWhitespace s)

/-- Python `s.rstrip` applied to the dot character, as in `clean_title`. -/
def pyRstripDot (s : Str) : Str := rstripBy (fun c => c = '.') s

/-- Python `s.replace(t, empty)`: removes every occurrence of one character. -/
def removeChar (t : Char) (s : Str) : Str := s.filter (fun c => c ≠ t)

/-- Python `s.replace(a, b)` for single characters `a`, `b`. -/
def pyReplaceChar (a b : Char) (s : Str) : Str :=
  s.map (fun c => if c = a then b else c)

/-- Lowercase hexadecimal digit, for repr escapes of control characters. -/
def hexDigitChar (n : Nat) : Char :=
  if n < 10 then Char.ofNat (48 + n) else Char.ofNat (87 + n)

/-- Quote character chosen by Python `repr` for a string: a double quote when
the string contains a single quote but no double quote, else a single quote. -/
def pyReprQuote (s : Str) : Char :=
  if '\'' ∈ s ∧ '"' ∉ s then '"' else '\''

/-- Escape of one character inside a Python `repr` string literal using quote
`q`. ASCII control characters are escaped; other characters are kept.
(Non-printable non-ASCII code points are not modelled; no title in any claim
contains one.) -/
def pyEscapeChar (q c : Char) : Str :=
  if c = '\\' then ['\\', '\\']
  else if c = q then ['\\', q]
  else if c = '\n' then ['\\', 'n']
  else if c = '\r' then ['\\', 'r']
  else if c = '\t' then ['\\', 't']
  else if c.toNat < 32 || c.toNat == 127 then
    ['\\', 'x', hexDigitChar (c.toNat / 16), hexDigitChar (c.toNat % 16)]
  else [c]

/-- Python `repr` of a string. -/
def pyReprStr (s : Str) : Str :=
  (pyReprQuote s) :: ((s.flatMap (pyEscapeChar (pyReprQuote s))) ++ [pyReprQuote s])

/-- Python `repr` of a set of strings, the set given as a duplicate-free list
in its iteration order (the iteration order of a Python set is unspecified). -/
def pySetRepr (l : List Str) : Str :=
  match l with
  | [] => ("set()" : String).data
  | _ :: _ => '\x7b' :: (List.intercalate (", " : String).data (l.map pyReprStr) ++ ['\x7d'])

/-- The function `clean_title` of `main.py`: the `repr` of the title set, with
braces and both quote characters removed, then trailing dots stripped, then
leading and trailing whitespace stripped. -/
def clean_title (title_set : List Str) : Str :=
  pyStrip (pyRstripDot (removeChar '"' (removeChar '\'' (removeChar '\x7d' (removeChar '\x7b' (pySetRepr title_set))))))

/-- Membership in `set(string.ascii_letters)` with the space character added,
the set `printable` built in `get_filename_from_title`. -/
def inPrintable (c : Char) : Bool :=
  ('a' ≤ c && c ≤ 'z') || ('A' ≤ c && c ≤ 'Z') || c = ' '

/-- The function `get_filename_from_title` of `main.py`. -/
def get_filename_from_title (title : Str) : Str :=
  pyReplaceChar ' ' '_' (pyStrip (title.filter inPrintable)) ++ (".md" : String).data

/-- One JSON record; a field is `none` when the key is missing from the
object. -/
structure Record where
  source : Option Str
  title : Option Str
  highlight : Option Str
deriving DecidableEq

/-- Python dict lookup: raises `KeyError` when the key is missing. -/
def getField (v : Option Str) : Except Unit Str :=
  match v with
  | some s => Except.ok s
  | none => Except.error ()

/-- Record whose three expected fields are all present. -/
def wfRecord (r : Record) : Bool :=
  r.source.isSome && r.title.isSome && r.highlight.isSome

/-- Sequential effectful map with Python evaluation order: the first raised
error aborts the whole traversal. -/
def mapE (f : α → Except Unit β) : List α → Except Unit (List β)
  | [] => Except.ok []
  | a :: l =>
    match f a with
    | Except.error e => Except.error e
    | Except.ok b =>
      match mapE f l with
      | Except.error e => Except.error e
      | Except.ok bs => Except.ok (b :: bs)

/-- The function `get_documents_urls` of `main.py`: the set of `source`
values, modelled as a duplicate-free list. Reading a record with no `source`
key raises. -/
def get_documents_urls (parsed_json : List Record) : Except Unit (List Str) :=
  match mapE (fun r => getField r.source) parsed_json with
  | Except.error e => Except.error e
  | Except.ok srcs => Except.ok srcs.dedup

/-- The document dictionary built by `process_url`. -/
structure Document where
  url : Str
  title : Str
  highlights : List Str
deriving DecidableEq

/-- One step of the comprehensions in `process_url`: the `source` of every
record is read; for records whose source equals `url` the selected field is
also read. -/
def fieldStep (url : Str) (f : Record → Option Str) (r : Record) : Except Unit (Option Str) :=
  match getField r.source with
  | Except.error e => Except.error e
  | Except.ok s =>
    if s = url then
      match getField (f r) with
      | Except.error e => Except.error e
      | Except.ok v => Except.ok (some v)
    else Except.ok none

/-- A comprehension of `process_url`: the values of field `f` over the records
whose `source` equals `url`, in input order. -/
def fieldsFor (url : Str) (f : Record → Option Str) (parsed_json : List Record) : Except Unit (List Str) :=
  match mapE (fieldStep url f) parsed_json with
  | Except.error e => Except.error e
  | Except.ok hits => Except.ok (hits.filterMap id)

/-- The function `process_url` of `main.py`. The title comprehension runs
first, then the highlight comprehension; the titles are collected into a set
(modelled by `dedup`, the iteration order of a Python set being unspecified). -/
def process_url (url : Str) (parsed_json : List Record) : Except Unit Document :=
  match fieldsFor url Record.title parsed_json with
  | Except.error e => Except.error e
  | Except.ok titles =>
    match fieldsFor url Record.highlight parsed_json with
    | Except.error e => Except.error e
    | Except.ok highlights =>
      Except.ok ⟨url, clean_title titles.dedup, highlights⟩

/-- The function `process_document` of `main.py`: the output path derived from
the title, and the file content as the concatenation of the write calls. The
highlights are written in reversed order (the slice with step -1). -/
def process_document (document : Document) : Str × Str :=
  (get_filename_from_title document.title,
    (('#' :: ' ' :: document.title) ++ ['\n'])
    ++ (("[Source](" : String).data ++ document.url ++ [')'] ++ ['\n'])
    ++ (document.highlights.reverse.foldl (fun acc line => acc ++ (line ++ ['\n'])) []))

/-- The function `process_json` of `main.py`. All documents are built in a
first pass; only then is each document written, one file write per document.
The returned list holds the (path, content) writes in order; an error leaves
no writes. -/
def process_json (parsed_json : List Record) : Except Unit (List (Str × Str)) :=
  match get_documents_urls parsed_json with
  | Except.error e => Except.error e
  | Except.ok urls =>
    match mapE (fun url => process_url url parsed_json) urls with
    | Except.error e => Except.error e
    | Except.ok documents => Except.ok (documents.map process_document)

/-- The subsequence of input highlight values whose source equals `url`, in
input order. -/
def sourceHighlights (url : Str) (parsed_json : List Record) : List Str :=
  (parsed_json.filter (fun r => r.source = some url)).filterMap Record.highlight

/-- ASCII letter, as worded by the spec. -/
def isAsciiLetter (c : Char) : Bool :=
  ('A' ≤ c && c ≤ 'Z') || ('a' ≤ c && c ≤ 'z')

/-- Modelled from the words of the spec: keep only ASCII letters and space
characters, trim leading and trailing whitespace, replace each remaining
space with an underscore, and append the .md extension. -/
def specFilename (title : Str) : Str :=
  pyReplaceChar ' ' '_' (pyStrip (title.filter (fun c => isAsciiLetter c || c = ' ')))
    ++ (".md" : String).data

/-- Modelled from the words of the amended claim: a level-1 heading line with
the title, a Source link line with the url, then one line per highlight in
the reverse of the Document highlight order, each verbatim with a trailing
line break. -/
def specRender (document : Document) : Str :=
  (("# " : String).data ++ document.title ++ ['\n'])
  ++ (("[Source](" : String).data ++ document.url ++ (")" : String).data ++ ['\n'])
  ++ (document.highlights.reverse.map (fun h => h ++ ['\n'])).flatten

theorem inPrintable_eq_spec (c : Char) : inPrintable c = (isAsciiLetter c || c = ' ') := by
  simp only [inPrintable, isAsciiLetter]
  cases h1 : (decide ('a' ≤ c) && decide (c ≤ 'z')) <;>
    cases h2 : (decide ('A' ≤ c) && decide (c ≤ 'Z')) <;>
      simp [h1, h2]

theorem foldl_append_lines (l : List Str) (init : Str) :
    l.foldl (fun acc line => acc ++ (line ++ ['\n'])) init
      = init ++ (l.map (fun h => h ++ ['\n'])).flatten := by
  induction l generalizing init with
  | nil => simp
  | cons a l ih => simp [List.foldl_cons, ih, List.append_assoc]

theorem mem_of_mem_rstripBy {p : Char → Bool} {s : Str} {c : Char}
    (h : c ∈ rstripBy p s) : c ∈ s := by
  unfold rstripBy at h
  rw [List.mem_reverse] at h
  have := (List.dropWhile_sublist p).mem h
  rwa [List.mem_reverse] at this

theorem mem_of_mem_pyStrip {s : Str} {c : Char} (h : c ∈ pyStrip s) : c ∈ s := by
  unfold pyStrip lstripBy at *
  exact (List.dropWhile_sublist pyWhitespace).mem (mem_of_mem_rstripBy h)

theorem mem_of_mem_pyRstripDot {s : Str} {c : Char} (h : c ∈ pyRstripDot s) : c ∈ s :=
  mem_of_mem_rstripBy h

theorem mem_removeChar {t : Char} {s : Str} {c : Char} (h : c ∈ removeChar t s) :
    c ∈ s ∧ c ≠ t := by
  unfold removeChar at h
  have := List.mem_filter.mp h
  simpa using this

instance {ε α : Type _} [DecidableEq ε] [DecidableEq α] : DecidableEq (Except ε α) := fun a b =>
  match a, b with
  | Except.error e, Except.error f =>
    if h : e = f then Decidable.isTrue (by rw [h])
    else Decidable.isFalse (by intro hh; cases hh; exact h rfl)
  | Except.error _, Except.ok _ => Decidable.isFalse (fun hh => Except.noConfusion hh)
  | Except.ok _, Except.error _ => Decidable.isFalse (fun hh => Except.noConfusion hh)
  | Except.ok x, Except.ok y =>
    if h : x = y then Decidable.isTrue (by rw [h])
    else Decidable.isFalse (by intro hh; cases hh; exact h rfl)

/-- First example record: source http://a, title A, highlight h1. -/
def recA1 : Record :=
  ⟨some ("http://a" : String).data, some ("A" : String).data, some ("h1" : String).data⟩

/-- Second example record: source http://a, title A, highlight h2. -/
def recA2 : Record :=
  ⟨some ("http://a" : String).data, some ("A" : String).data, some ("h2" : String).data⟩

/-- C3: for the two records with source http://a, title A and highlights h1
then h2, the single output file is A.md and its rendered text lists the
highlights in the order h2 then h1, the reverse of input order. -/
theorem c3_two_records_render :
    process_json [recA1, recA2]
      = Except.ok [(("A.md" : String).data,
          ("# A\n[Source](http://a)\nh2\nh1\n" : String).data)] := by
  decide

/-- C5 counterexample: applying the title sanitizer to the empty set of
titles does not give the empty string. -/
theorem c5_counterexample : clean_title [] ≠ ([] : Str) := by decide

/-- C5 amended: applying the title sanitizer to the empty set of titles
returns the 5-character string set() (the Python rendering of an empty set);
no error is raised, the sanitizer being total. -/
theorem c5_empty_title_set : clean_title [] = ("set()" : String).data := by decide

/-- C6: title sanitization is idempotent on the already-clean single title
My Article: sanitizing it yields the same string, and sanitizing the result
again yields the same string. -/
theorem c6_clean_title_idempotent :
    clean_title [("My Article" : String).data] = ("My Article" : String).data
    ∧ clean_title [clean_title [("My Article" : String).data]]
        = clean_title [("My Article" : String).data] := by
  decide

/-- C2 counterexample: for the two records with source http://a and
highlights h1 then h2, the Document built by process_url has highlights equal
to the input-order subsequence, which differs from its reverse; so the built
Document is not reversed. -/
theorem c2_counterexample :
    (process_url ("http://a" : String).data [recA1, recA2]).toOption.map Document.highlights
      = some (sourceHighlights ("http://a" : String).data [recA1, recA2])
    ∧ (process_url ("http://a" : String).data [recA1, recA2]).toOption.map Document.highlights
      ≠ some (List.reverse (sourceHighlights ("http://a" : String).data [recA1, recA2])) := by
  decide

/-- C8 counterexample: for a Document whose highlights are h1 then h2, the
rendered blob lists h2 before h1, not the Document order h1 then h2 that the
claim states. -/
theorem c8_counterexample :
    (process_document ⟨("http://a" : String).data, ("A" : String).data,
        [("h1" : String).data, ("h2" : String).data]⟩).2
      = ("# A\n[Source](http://a)\nh2\nh1\n" : String).data
    ∧ (process_document ⟨("http://a" : String).data, ("A" : String).data,
        [("h1" : String).data, ("h2" : String).data]⟩).2
      ≠ ("# A\n[Source](http://a)\nh1\nh2\n" : String).data := by
  decide

/-- C4: filename derivation keeps only ASCII letters and spaces, trims
whitespace, replaces each remaining space with an underscore and appends the
.md extension; in particular the title Tip #1: Go Faster! yields the
filename Tip__Go_Faster.md with consecutive underscores. -/
theorem c4_filename_derivation :
    (∀ title : Str, get_filename_from_title title = specFilename title)
    ∧ get_filename_from_title ("Tip #1: Go Faster!" : String).data
        = ("Tip__Go_Faster.md" : String).data := by
  constructor
  · intro title
    unfold get_filename_from_title specFilename
    rw [List.filter_congr (fun c _ => inPrintable_eq_spec c)]
  · decide

/-- C8 amended: for every Document, the rendered blob is the level-1 heading
line with the title, the Source link line with the url, then one line per
highlight in the reverse of the Document highlight order, each highlight
verbatim followed by a line break; the path is derived from the title. -/
theorem c8_render_structure (document : Document) :
    process_document document
      = (get_filename_from_title document.title, specRender document) := by
  unfold process_document specRender
  rw [foldl_append_lines]
  rfl

/-- C9: for every non-empty set of titles, the sanitized display title
contains no brace, single quote or double quote character; in particular the
single title with an apostrophe, Don t Panic, sanitizes to Dont Panic. -/
theorem c9_no_special_chars :
    (∀ titles : List Str, titles ≠ [] →
      ∀ c ∈ clean_title titles,
        ¬(c = '\x7b' ∨ c = '\x7d' ∨ c = '\'' ∨ c = '"'))
    ∧ clean_title [['D','o','n','\'','t',' ','P','a','n','i','c']]
        = ("Dont Panic" : String).data := by
  constructor
  · intro titles _ c hc
    have h1 := mem_of_mem_pyRstripDot (mem_of_mem_pyStrip hc)
    have h2 := mem_removeChar h1
    have h3 := mem_removeChar h2.1
    have h4 := mem_removeChar h3.1
    have h5 := mem_removeChar h4.1
    rintro (rfl | rfl | rfl | rfl)
    · exact h5.2 rfl
    · exact h4.2 rfl
    · exact h3.2 rfl
    · exact h2.2 rfl
  · decide

/-- Witness for C9 at the singleton title A. -/
theorem c9_no_special_chars_witness :
    ([("A" : String).data] ≠ ([] : List Str))
    ∧ ∀ c ∈ clean_title [("A" : String).data],
        ¬(c = '\x7b' ∨ c = '\x7d' ∨ c = '\'' ∨ c = '"') :=
  ⟨by decide, c9_no_special_chars.1 [("A" : String).data] (by decide)⟩

theorem mapE_sources_ok {l : List Record} (h : ∀ r ∈ l, (r.source).isSome) :
    mapE (fun r => getField r.source) l = Except.ok (l.filterMap Record.source) := by
  induction l with
  | nil => rfl
  | cons r l ih =>
    obtain ⟨s, hs⟩ := Option.isSome_iff_exists.mp (h r (by simp))
    have ih' := ih (fun x hx => h x (List.mem_cons_of_mem r hx))
    simp only [getField] at ih'
    simp [mapE, getField, hs, ih', List.filterMap_cons]

theorem mapE_fieldStep_ok {url : Str} {f : Record → Option Str} {l : List Record}
    (hs : ∀ r ∈ l, (r.source).isSome) (hf : ∀ r ∈ l, (f r).isSome) :
    mapE (fieldStep url f) l
      = Except.ok (l.map (fun r => if r.source = some url then f r else none)) := by
  induction l with
  | nil => rfl
  | cons r l ih =>
    obtain ⟨s, hsome⟩ := Option.isSome_iff_exists.mp (hs r (by simp))
    obtain ⟨v, hv⟩ := Option.isSome_iff_exists.mp (hf r (by simp))
    have ih' := ih (fun x hx => hs x (List.mem_cons_of_mem r hx))
      (fun x hx => hf x (List.mem_cons_of_mem r hx))
    by_cases hu : s = url
    · simp [mapE, fieldStep, hsome, hv, getField, hu, ih']
    · simp [mapE, fieldStep, hsome, hv, getField, hu, ih']

theorem filterMap_if {α β : Type _} (p : α → Prop) [DecidablePred p]
    (f : α → Option β) (l : List α) :
    l.filterMap (fun a => if p a then f a else none)
      = (l.filter (fun a => decide (p a))).filterMap f := by
  induction l with
  | nil => rfl
  | cons a l ih =>
    by_cases h : p a <;> simp [List.filter_cons, List.filterMap_cons, h, ih]

theorem fieldsFor_ok {url : Str} {f : Record → Option Str} {l : List Record}
    (hs : ∀ r ∈ l, (r.source).isSome) (hf : ∀ r ∈ l, (f r).isSome) :
    fieldsFor url f l
      = Except.ok ((l.filter (fun r => r.source = some url)).filterMap f) := by
  unfold fieldsFor
  rw [mapE_fieldStep_ok hs hf]
  simp only [List.filterMap_map]
  rw [show ((id : Option Str → Option Str) ∘ fun r : Record =>
      if r.source = some url then f r else none)
      = fun r : Record => if r.source = some url then f r else none from rfl]
  rw [filterMap_if]

theorem wf_source {l : List Record} (h : ∀ r ∈ l, wfRecord r) :
    ∀ r ∈ l, (r.source).isSome := by
  intro r hr
  have := h r hr
  simp only [wfRecord, Bool.and_eq_true] at this
  exact this.1.1

theorem wf_title {l : List Record} (h : ∀ r ∈ l, wfRecord r) :
    ∀ r ∈ l, (r.title).isSome := by
  intro r hr
  have := h r hr
  simp only [wfRecord, Bool.and_eq_true] at this
  exact this.1.2

theorem wf_highlight {l : List Record} (h : ∀ r ∈ l, wfRecord r) :
    ∀ r ∈ l, (r.highlight).isSome := by
  intro r hr
  have := h r hr
  simp only [wfRecord, Bool.and_eq_true] at this
  exact this.2

theorem process_url_ok {url : Str} {l : List Record} (h : ∀ r ∈ l, wfRecord r) :
    process_url url l
      = Except.ok ⟨url,
          clean_title ((l.filter (fun r => r.source = some url)).filterMap Record.title).dedup,
          sourceHighlights url l⟩ := by
  unfold process_url
  rw [fieldsFor_ok (wf_source h) (wf_title h), fieldsFor_ok (wf_source h) (wf_highlight h)]
  rfl

theorem mapE_ok_exists {α β : Type _} {f : α → Except Unit β} {l : List α}
    (h : ∀ a ∈ l, ∃ b, f a = Except.ok b) :
    ∃ bs, mapE f l = Except.ok bs ∧ bs.length = l.length := by
  induction l with
  | nil => exact ⟨[], rfl, rfl⟩
  | cons a l ih =>
    obtain ⟨b, hb⟩ := h a (by simp)
    obtain ⟨bs, hbs, hlen⟩ := ih (fun x hx => h x (List.mem_cons_of_mem a hx))
    exact ⟨b :: bs, by simp [mapE, hb, hbs], by simp [hlen]⟩

theorem dedup_length_eq_toFinset_card (l : List Str) :
    l.dedup.length = l.toFinset.card := by
  rw [Finset.card_def, List.toFinset_val]
  exact (Multiset.coe_card _).symm

/-- C1: for every input whose records all carry the three expected fields,
the run succeeds and performs exactly one file write per distinct source
value, whatever the titles are. -/
theorem c1_output_count {parsed_json : List Record}
    (h : ∀ r ∈ parsed_json, wfRecord r) :
    ∃ writes, process_json parsed_json = Except.ok writes
      ∧ writes.length = (parsed_json.filterMap Record.source).toFinset.card := by
  obtain ⟨docs, hdocs, hlen⟩ := mapE_ok_exists
    (f := fun url => process_url url parsed_json)
    (l := (parsed_json.filterMap Record.source).dedup)
    (fun url _ => ⟨_, process_url_ok h⟩)
  refine ⟨docs.map process_document, ?_, ?_⟩
  · unfold process_json get_documents_urls
    rw [mapE_sources_ok (wf_source h)]
    simp only []
    rw [hdocs]
  · rw [List.length_map, hlen, dedup_length_eq_toFinset_card]

/-- Witness example record: source http://b, title B, highlight h3. -/
def recB : Record :=
  ⟨some ("http://b" : String).data, some ("B" : String).data, some ("h3" : String).data⟩

/-- Witness for C1 at a two-source input. -/
theorem c1_output_count_witness :
    (∀ r ∈ [recA1, recA2, recB], wfRecord r)
    ∧ ∃ writes, process_json [recA1, recA2, recB] = Except.ok writes
        ∧ writes.length = (([recA1, recA2, recB]).filterMap Record.source).toFinset.card :=
  ⟨by decide, c1_output_count (by decide)⟩

/-- C2 amended: for every well-formed input and every url, the Document built
by process_url has highlights equal to the subsequence of input highlights
whose source equals that url, in input order, not reversed; the reversal to
display order happens later, in the renderer. -/
theorem c2_document_highlights {url : Str} {parsed_json : List Record}
    (h : ∀ r ∈ parsed_json, wfRecord r) :
    ∃ d, process_url url parsed_json = Except.ok d
      ∧ d.highlights = sourceHighlights url parsed_json :=
  ⟨_, process_url_ok h, rfl⟩

/-- Witness for C2 amended at the two-record input for source http://a. -/
theorem c2_document_highlights_witness :
    (∀ r ∈ [recA1, recA2], wfRecord r)
    ∧ ∃ d, process_url ("http://a" : String).data [recA1, recA2] = Except.ok d
        ∧ d.highlights = sourceHighlights ("http://a" : String).data [recA1, recA2] :=
  ⟨by decide, c2_document_highlights (by decide)⟩

theorem mapE_error_of_mem {α β : Type _} {f : α → Except Unit β} {l : List α} {a : α}
    (ha : a ∈ l) (he : f a = Except.error ()) : mapE f l = Except.error () := by
  induction l with
  | nil => cases ha
  | cons x l ih =>
    rcases List.mem_cons.mp ha with rfl | hmem
    · simp [mapE, he]
    · cases hx : f x with
      | error e => cases e; simp [mapE, hx]
      | ok b => simp [mapE, hx, ih hmem]

/-- C7: for every input in which some record is missing one of the three
expected fields, the run fails with an error; since in `process_json` the
error is raised while building the documents, before the write loop starts,
no write is performed, which the model reflects by returning no write list. -/
theorem c7_missing_field_aborts {parsed_json : List Record}
    (h : ∃ r ∈ parsed_json, wfRecord r = false) :
    process_json parsed_json = Except.error () := by
  obtain ⟨r, hr, hbad⟩ := h
  by_cases hall : ∀ x ∈ parsed_json, (x.source).isSome
  · obtain ⟨s, hs⟩ := Option.isSome_iff_exists.mp (hall r hr)
    have hmiss : r.title = none ∨ r.highlight = none := by
      rcases ht : r.title with _ | t
      · exact Or.inl rfl
      · rcases hh : r.highlight with _ | v
        · exact Or.inr rfl
        · rw [wfRecord, hs, ht, hh] at hbad
          simp at hbad
    have hsmem : s ∈ (parsed_json.filterMap Record.source).dedup := by
      rw [List.mem_dedup, List.mem_filterMap]
      exact ⟨r, hr, hs⟩
    have hurl : process_url s parsed_json = Except.error () := by
      cases hT : fieldsFor s Record.title parsed_json with
      | error e =>
        cases e
        unfold process_url
        rw [hT]
      | ok T =>
        rcases hmiss with hm | hm
        · exfalso
          have hstep : fieldStep s Record.title r = Except.error () := by
            simp [fieldStep, getField, hs, hm]
          have : fieldsFor s Record.title parsed_json = Except.error () := by
            unfold fieldsFor
            rw [mapE_error_of_mem hr hstep]
          rw [this] at hT
          cases hT
        · have hstep : fieldStep s Record.highlight r = Except.error () := by
            simp [fieldStep, getField, hs, hm]
          have hH : fieldsFor s Record.highlight parsed_json = Except.error () := by
            unfold fieldsFor
            rw [mapE_error_of_mem hr hstep]
          unfold process_url
          rw [hT, hH]
    unfold process_json get_documents_urls
    rw [mapE_sources_ok hall]
    simp only []
    rw [mapE_error_of_mem hsmem hurl]
  · push_neg at hall
    obtain ⟨x, hx, hxs⟩ := hall
    have hxe : getField x.source = Except.error () := by
      rcases he : x.source with _ | s
      · rfl
      · rw [he] at hxs
        simp at hxs
    unfold process_json get_documents_urls
    rw [mapE_error_of_mem hx (show (fun r : Record => getField r.source) x = Except.error () from hxe)]

/-- Witness example record with a missing title field. -/
def recNoTitle : Record :=
  ⟨some ("http://a" : String).data, none, some ("h1" : String).data⟩

/-- Witness for C7 at a one-record input missing its title. -/
theorem c7_missing_field_aborts_witness :
    (∃ r ∈ [recNoTitle], wfRecord r = false)
    ∧ process_json [recNoTitle] = Except.error () :=
  ⟨by decide, c7_missing_field_aborts (by decide)⟩

/-- Character class used to state C10: ASCII letters, the space, the newline
and the backslash. -/
def benignChar (c : Char) : Bool :=
  (65 ≤ c.toNat && c.toNat ≤ 90) || (97 ≤ c.toNat && c.toNat ≤ 122)
    || c = ' ' || c = '\n' || c = '\\'

/-- The escape Python repr applies on that class: a newline becomes the two
characters backslash and n, a backslash is doubled, anything else is kept. -/
def escNL (c : Char) : Str :=
  if c = '\n' then ['\\', 'n'] else if c = '\\' then ['\\', '\\'] else [c]

/-- Characters that can occur in the escaped body of such a title: ASCII
letters, the space and the backslash. -/
def bodyChar (c : Char) : Bool :=
  (65 ≤ c.toNat && c.toNat ≤ 90) || (97 ≤ c.toNat && c.toNat ≤ 122)
    || c = ' ' || c = '\\'

theorem pyEscapeChar_letter {c : Char}
    (h : (65 ≤ c.toNat ∧ c.toNat ≤ 90) ∨ (97 ≤ c.toNat ∧ c.toNat ≤ 122)) :
    pyEscapeChar '\'' c = [c] ∧ escNL c = [c] := by
  have h65 : 65 ≤ c.toNat := by rcases h with ⟨h1, _⟩ | ⟨h1, _⟩ <;> omega
  have h122 : c.toNat ≤ 122 := by rcases h with ⟨_, h2⟩ | ⟨_, h2⟩ <;> omega
  have h92 : c.toNat ≠ 92 := by rcases h with ⟨_, h2⟩ | ⟨h1, _⟩ <;> omega
  have hbs : c ≠ '\\' := by intro he; subst he; exact h92 (by decide)
  have hq : c ≠ '\'' := by intro he; subst he; exact absurd h65 (by decide)
  have hnl : c ≠ '\n' := by intro he; subst he; exact absurd h65 (by decide)
  have hcr : c ≠ '\r' := by intro he; subst he; exact absurd h65 (by decide)
  have htb : c ≠ '\t' := by intro he; subst he; exact absurd h65 (by decide)
  have h32 : ¬ c.toNat < 32 := by omega
  have h127 : c.toNat ≠ 127 := by omega
  constructor
  · simp [pyEscapeChar, hbs, hq, hnl, hcr, htb, h32, h127]
  · simp [escNL, hnl, hbs]

theorem pyEscapeChar_benign {c : Char} (h : benignChar c = true) :
    pyEscapeChar '\'' c = escNL c := by
  simp only [benignChar, Bool.or_eq_true, Bool.and_eq_true, decide_eq_true_eq] at h
  rcases h with (((hU | hL) | hsp) | hnl) | hbs
  · rw [(pyEscapeChar_letter (Or.inl hU)).1, (pyEscapeChar_letter (Or.inl hU)).2]
  · rw [(pyEscapeChar_letter (Or.inr hL)).1, (pyEscapeChar_letter (Or.inr hL)).2]
  · subst hsp; decide
  · subst hnl; decide
  · subst hbs; decide

theorem flatMap_congr_chars {f g : Char → Str} {l : Str} (h : ∀ c ∈ l, f c = g c) :
    l.flatMap f = l.flatMap g := by
  induction l with
  | nil => rfl
  | cons a l ih =>
    simp only [List.flatMap_cons]
    rw [h a (by simp), ih (fun c hc => h c (List.mem_cons_of_mem a hc))]

theorem escNL_bodyChar {c : Char} (h : benignChar c = true) :
    ∀ d ∈ escNL c, bodyChar d = true := by
  simp only [benignChar, Bool.or_eq_true, Bool.and_eq_true, decide_eq_true_eq] at h
  rcases h with (((hU | hL) | hsp) | hnl) | hbs
  · intro d hd
    rw [(pyEscapeChar_letter (Or.inl hU)).2] at hd
    simp at hd
    subst hd
    simp only [bodyChar, Bool.or_eq_true, Bool.and_eq_true, decide_eq_true_eq]
    exact Or.inl (Or.inl (Or.inl ⟨hU.1, hU.2⟩))
  · intro d hd
    rw [(pyEscapeChar_letter (Or.inr hL)).2] at hd
    simp at hd
    subst hd
    simp only [bodyChar, Bool.or_eq_true, Bool.and_eq_true, decide_eq_true_eq]
    exact Or.inl (Or.inl (Or.inr ⟨hL.1, hL.2⟩))
  · subst hsp
    intro d hd
    simp [escNL] at hd
    subst hd
    decide
  · subst hnl
    intro d hd
    simp [escNL] at hd
    rcases hd with rfl | rfl <;> decide
  · subst hbs
    intro d hd
    simp [escNL] at hd
    rcases hd with rfl | rfl <;> decide

theorem bodyChar_flatMap {t : Str} (h : ∀ c ∈ t, benignChar c = true) :
    ∀ d ∈ t.flatMap escNL, bodyChar d = true := by
  intro d hd
  rw [List.mem_flatMap] at hd
  obtain ⟨c, hc, hdc⟩ := hd
  exact escNL_bodyChar (h c hc) d hdc

theorem bodyChar_ne {d : Char} (h : bodyChar d = true) :
    d ≠ '\x7b' ∧ d ≠ '\x7d' ∧ d ≠ '\'' ∧ d ≠ '"' ∧ d ≠ '.' ∧ d ≠ '\n' := by
  simp only [bodyChar, Bool.or_eq_true, Bool.and_eq_true, decide_eq_true_eq] at h
  refine ⟨?_, ?_, ?_, ?_, ?_, ?_⟩ <;> intro he <;> subst he <;> revert h <;> decide

theorem dropWhile_eq_self_of {p : Char → Bool} {l : Str} (h : ∀ c ∈ l, p c = false) :
    l.dropWhile p = l := by
  cases l with
  | nil => rfl
  | cons a l => simp [List.dropWhile_cons, h a (by simp)]

theorem removeChar_cons (x y : Char) (l : Str) :
    removeChar x (y :: l) = if y = x then removeChar x l else y :: removeChar x l := by
  simp only [removeChar, List.filter_cons]
  by_cases h : y = x <;> simp [h]

theorem removeChar_append (x : Char) (l1 l2 : Str) :
    removeChar x (l1 ++ l2) = removeChar x l1 ++ removeChar x l2 := by
  simp [removeChar, List.filter_append]

theorem removeChar_nil (x : Char) : removeChar x [] = [] := rfl

theorem clean_title_single {t : Str} (h : ∀ c ∈ t, benignChar c = true) :
    clean_title [t] = pyStrip (t.flatMap escNL) := by
  have hbodyc := bodyChar_flatMap h
  have hq : pyReprQuote t = '\'' := by
    unfold pyReprQuote
    rw [if_neg]
    rintro ⟨h1, _⟩
    have := h '\'' h1
    rw [show benignChar '\'' = false from by decide] at this
    cases this
  have hrepr : pyReprStr t = '\'' :: (t.flatMap escNL ++ ['\'']) := by
    unfold pyReprStr
    rw [hq, flatMap_congr_chars (fun c hc => pyEscapeChar_benign (h c hc))]
  have hset : pySetRepr [t] = '\x7b' :: (('\'' :: (t.flatMap escNL ++ ['\''])) ++ ['\x7d']) := by
    simp [pySetRepr, List.intercalate, hrepr]
  have hb1 : removeChar '\x7b' (t.flatMap escNL) = t.flatMap escNL := by
    unfold removeChar
    rw [List.filter_eq_self]
    intro a ha
    simpa using (bodyChar_ne (hbodyc a ha)).1
  have hb2 : removeChar '\x7d' (t.flatMap escNL) = t.flatMap escNL := by
    unfold removeChar
    rw [List.filter_eq_self]
    intro a ha
    simpa using (bodyChar_ne (hbodyc a ha)).2.1
  have hb3 : removeChar '\'' (t.flatMap escNL) = t.flatMap escNL := by
    unfold removeChar
    rw [List.filter_eq_self]
    intro a ha
    simpa using (bodyChar_ne (hbodyc a ha)).2.2.1
  have hb4 : removeChar '"' (t.flatMap escNL) = t.flatMap escNL := by
    unfold removeChar
    rw [List.filter_eq_self]
    intro a ha
    simpa using (bodyChar_ne (hbodyc a ha)).2.2.2.1
  have hdot : pyRstripDot (t.flatMap escNL) = t.flatMap escNL := by
    unfold pyRstripDot rstripBy
    rw [dropWhile_eq_self_of, List.reverse_reverse]
    intro c hc
    rw [List.mem_reverse] at hc
    simpa using (bodyChar_ne (hbodyc c hc)).2.2.2.2.1
  have e1 : ¬ ('\'' : Char) = '\x7b' := by decide
  have e2 : ¬ ('\x7d' : Char) = '\x7b' := by decide
  have e3 : ¬ ('\'' : Char) = '\x7d' := by decide
  have hrm : removeChar '"' (removeChar '\'' (removeChar '\x7d' (removeChar '\x7b'
      ('\x7b' :: (('\'' :: (t.flatMap escNL ++ ['\''])) ++ ['\x7d'])))))
      = t.flatMap escNL := by
    simp [removeChar_cons, removeChar_append, removeChar_nil, hb1, hb2, hb3, hb4, e1, e2, e3]
  unfold clean_title
  rw [hset, hrm, hdot]

theorem count_dropWhile {p : Char → Bool} {c : Char} (hc : p c = false) (l : Str) :
    (l.dropWhile p).count c = l.count c := by
  induction l with
  | nil => rfl
  | cons a l ih =>
    by_cases hpa : p a
    · have hac : c ≠ a := by
        intro hh
        rw [hh, hpa] at hc
        cases hc
      rw [List.dropWhile_cons_of_pos hpa, ih, List.count_cons]
      simp [hac, Ne.symm hac]
    · rw [List.dropWhile_cons_of_neg hpa]

theorem count_pyStrip_bs (l : Str) : (pyStrip l).count '\\' = l.count '\\' := by
  unfold pyStrip rstripBy lstripBy
  rw [List.count_reverse,
    count_dropWhile (show pyWhitespace '\\' = false from by decide),
    List.count_reverse,
    count_dropWhile (show pyWhitespace '\\' = false from by decide)]

theorem count_bs_flatMap (t : Str) :
    (t.flatMap escNL).count '\\' = 2 * t.count '\\' + t.count '\n' := by
  induction t with
  | nil => rfl
  | cons c t ih =>
    rw [List.flatMap_cons, List.count_append, ih, List.count_cons, List.count_cons]
    by_cases h1 : c = '\n'
    · subst h1
      simp [escNL]
      omega
    · by_cases h2 : c = '\\'
      · subst h2
        simp [escNL]
        omega
      · simp [escNL, h1, h2, Ne.symm h1, Ne.symm h2]

/-- C10: on a single title made of letters, spaces, newlines and backslashes,
the sanitized title is the stripped repr escape of the title: each newline
appears as the two characters backslash and n, each backslash is doubled (so
the backslash count is twice the title backslash count plus the newline
count), and no newline remains. -/
theorem c10_repr_escapes {t : Str} (h : ∀ c ∈ t, benignChar c = true) :
    clean_title [t] = pyStrip (t.flatMap escNL)
    ∧ '\n' ∉ clean_title [t]
    ∧ (clean_title [t]).count '\\' = 2 * t.count '\\' + t.count '\n' := by
  have hct := clean_title_single h
  refine ⟨hct, ?_, ?_⟩
  · rw [hct]
    intro hmem
    have := bodyChar_flatMap h '\n' (mem_of_mem_pyStrip hmem)
    rw [show bodyChar '\n' = false from by decide] at this
    cases this
  · rw [hct, count_pyStrip_bs, count_bs_flatMap]

/-- Witness for C10 at the title a, newline, b, backslash, c. -/
theorem c10_repr_escapes_witness :
    (∀ c ∈ (['a', '\n', 'b', '\\', 'c'] : Str), benignChar c = true)
    ∧ (clean_title [(['a', '\n', 'b', '\\', 'c'] : Str)]
          = pyStrip ((['a', '\n', 'b', '\\', 'c'] : Str).flatMap escNL)
        ∧ '\n' ∉ clean_title [(['a', '\n', 'b', '\\', 'c'] : Str)]
        ∧ (clean_title [(['a', '\n', 'b', '\\', 'c'] : Str)]).count '\\'
            = 2 * (['a', '\n', 'b', '\\', 'c'] : Str).count '\\'
              + (['a', '\n', 'b', '\\', 'c'] : Str).count '\n') :=
  ⟨by decide, c10_repr_escapes (by decide)⟩
